import Mathlib

/-!
Shallow embedding of the grep utility implemented in src/grep.rs.

Strings are modelled as their byte sequences (`List Nat`): every string
operation the program uses (`to_ascii_lowercase`, `eq_ignore_ascii_case`,
`contains`, equality) acts byte-wise in Rust, so this model is faithful.
A file is modelled as the list of its lines with the trailing newline of
each line stripped, exactly the shape the `read_line` /
`trim_end_matches` loop of `handle_file` produces; a file system maps a
path to `some lines` or to `none` when opening the file fails.
-/

namespace Grep

/-- Byte strings: the model of Rust `String` and `&str` values. -/
abbrev Str : Type := List Nat

/-- The `Flags` struct of grep.rs (the field `case_insensitie` keeps the
source's spelling). The `pattern` and `files` fields are carried by the
struct but, as the theorems below show, never read by the scanner. -/
structure Flags where
  show_line_number : Bool
  file_name_only : Bool
  case_insensitie : Bool
  invert_mode : Bool
  entire_line_only : Bool
  pattern : Str
  files : List Str

/-- Rust `u8::to_ascii_lowercase`: ASCII uppercase bytes shift to lowercase. -/
def asciiLowerByte (b : Nat) : Nat := if 65 ≤ b ∧ b ≤ 90 then b + 32 else b

/-- Rust `str::to_ascii_lowercase`, byte-wise. -/
def toAsciiLowercase (s : Str) : Str := s.map asciiLowerByte

/-- Rust `str::eq_ignore_ascii_case`: equality after ASCII case folding. -/
def eqIgnoreAsciiCase (a b : Str) : Bool := toAsciiLowercase a == toAsciiLowercase b

/-- Rust `str::contains` with a literal pattern: substring containment. -/
def containsSub (s pat : Str) : Bool := decide (pat <:+: s)

/-- Decimal representation of a line number, as bytes (`usize::to_string`). -/
def numToStr (n : Nat) : Str := (Nat.repr n).data.map Char.toNat

/-- The per-line hit decision of `handle_file` (grep.rs lines 142-165).
Here `pattern` is the pattern already case-folded by the caller when
`case_insensitie` is set, exactly as `handle_file` computes it once
before its loop. -/
def hitLine (flags : Flags) (pattern line : Str) : Bool :=
  if flags.case_insensitie then
    if flags.entire_line_only then eqIgnoreAsciiCase line pattern
    else containsSub (toAsciiLowercase line) pattern
  else
    if flags.entire_line_only then line == pattern
    else containsSub line pattern

/-- The while loop of `handle_file` (grep.rs lines 135-187). `n` is the
value of the `line_number` counter before the next line is read, so the
first line of the file is processed with `n = 0` and numbered `1`. On a
hit with `file_name_only` the path is pushed and the loop breaks; on a
hit otherwise the line is pushed, prefixed with `line_number:` when
`show_line_number` is set; on a miss the line is pushed unmodified when
`invert_mode` is set. 58 is the byte of the colon. -/
def scanLines (flags : Flags) (path pattern : Str) : List Str → Nat → List Str
  | [], _ => []
  | line :: rest, n =>
    let line_number := n + 1
    if hitLine flags pattern line then
      if flags.file_name_only then [path]
      else
        (if flags.show_line_number then numToStr line_number ++ 58 :: line else line)
          :: scanLines flags path pattern rest line_number
    else
      if flags.invert_mode then line :: scanLines flags path pattern rest line_number
      else scanLines flags path pattern rest line_number

/-- A file system: a path maps to the list of lines of the file, or to
`none` when the file cannot be opened for reading. -/
abbrev FileSys : Type := Str → Option (List Str)

/-- `handle_file` of grep.rs (lines 119-191): case-folds the pattern once
when `case_insensitie` is set, contributes no lines when the file cannot
be opened, and returns `Ok` on every path. -/
def handle_file (fsys : FileSys) (path : Str) ( _pattern : Str) (flags : Flags) :
    Except String (List Str) :=
  let pattern := if flags.case_insensitie then toAsciiLowercase _pattern else _pattern
  match fsys path with
  | some lines => Except.ok (scanLines flags path pattern lines 0)
  | none => Except.ok []

/-- `grep` of grep.rs (lines 106-117): appends each file's result when it
is `Ok` (which it always is) and returns `Ok` overall. -/
def grep (fsys : FileSys) (pattern : Str) (flags : Flags) (files : List Str) :
    Except String (List Str) :=
  Except.ok (files.foldl (fun result f =>
    match handle_file fsys f pattern flags with
    | Except.ok items => result ++ items
    | Except.error _ => result) [])

/-- The list of output lines `handle_file` wraps in `Ok`. -/
def handleOut (fsys : FileSys) (path : Str) ( _pattern : Str) (flags : Flags) : List Str :=
  let pattern := if flags.case_insensitie then toAsciiLowercase _pattern else _pattern
  match fsys path with
  | some lines => scanLines flags path pattern lines 0
  | none => []

/-- The hit decision as a function of the original, unfolded pattern:
the composition of the pattern fold of `handle_file` with `hitLine`. -/
def hitDecision (flags : Flags) ( _pattern line : Str) : Bool :=
  hitLine flags (if flags.case_insensitie then toAsciiLowercase _pattern else _pattern) line

/-- Two byte strings differ at most in the ASCII case of letters. -/
def AsciiCaseVariant (a b : Str) : Prop := toAsciiLowercase a = toAsciiLowercase b

/-- Folding a byte twice is the same as folding it once. -/
theorem asciiLowerByte_idem (b : Nat) : asciiLowerByte (asciiLowerByte b) = asciiLowerByte b := by
  simp only [asciiLowerByte]
  by_cases h : 65 ≤ b ∧ b ≤ 90
  · have h2 : ¬(65 ≤ b + 32 ∧ b + 32 ≤ 90) := by omega
    simp only [if_pos h, if_neg h2]
  · simp only [if_neg h]

/-- ASCII case folding is idempotent on byte strings. -/
theorem toAsciiLowercase_idem (s : Str) :
    toAsciiLowercase (toAsciiLowercase s) = toAsciiLowercase s := by
  simp only [toAsciiLowercase, List.map_map]
  congr 1
  funext b
  exact asciiLowerByte_idem b

/-- ASCII case folding preserves the length of a byte string. -/
theorem toAsciiLowercase_length (s : Str) : (toAsciiLowercase s).length = s.length := by
  simp [toAsciiLowercase]

/-- Mapping a function over both strings preserves substring containment. -/
theorem substr_map (f : Nat → Nat) {p l : Str} (h : p <:+: l) : p.map f <:+: l.map f := by
  obtain ⟨s, t, rfl⟩ := h
  exact ⟨s.map f, t.map f, by simp⟩

/-- The accumulating append loop of `grep` is concatenation of the per-file outputs. -/
theorem foldl_append_flatMap (h : Str → List Str) :
    ∀ (fs : List Str) (a : List Str),
      fs.foldl (fun r f => r ++ h f) a = a ++ fs.flatMap h
  | [], a => by simp
  | f :: fs, a => by
    simp [List.foldl_cons, foldl_append_flatMap h fs (a ++ h f), List.flatMap_cons]

/-- `handle_file` succeeds on every input, with `handleOut` as its payload. -/
theorem handle_file_eq_ok (fsys : FileSys) (path p : Str) (flags : Flags) :
    handle_file fsys path p flags = Except.ok (handleOut fsys path p flags) := by
  simp only [handle_file, handleOut]
  cases fsys path <;> rfl

/-- `grep` succeeds on every input and concatenates the per-file outputs in order. -/
theorem grep_eq_ok (fsys : FileSys) (p : Str) (flags : Flags) (files : List Str) :
    grep fsys p flags files = Except.ok (files.flatMap fun f => handleOut fsys f p flags) := by
  simp only [grep]
  have hfun : (fun result f =>
      match handle_file fsys f p flags with
      | Except.ok items => result ++ items
      | Except.error _ => result) = fun result f => result ++ handleOut fsys f p flags := by
    funext r f
    rw [handle_file_eq_ok]
  rw [hfun, foldl_append_flatMap, List.nil_append]

/-- When `file_name_only` is off, the scan loop emits, per line in order: the
formatted line on a hit, the raw line on a miss when `invert_mode` is on,
nothing otherwise. -/
theorem scanLines_eq_flatMap (flags : Flags) (path pattern : Str)
    (hfno : flags.file_name_only = false) (ls : List Str) :
    ∀ n, scanLines flags path pattern ls n = (ls.enumFrom (n + 1)).flatMap fun q =>
      if hitLine flags pattern q.2 then
        [if flags.show_line_number then numToStr q.1 ++ 58 :: q.2 else q.2]
      else if flags.invert_mode then [q.2] else [] := by
  induction ls with
  | nil => intro n; simp [scanLines]
  | cons line rest ih =>
    intro n
    simp only [List.enumFrom_cons, List.flatMap_cons, scanLines, hfno]
    cases hh : hitLine flags pattern line
    · cases hv : flags.invert_mode <;> simp [hh, hv, ih (n + 1)]
    · simp [hh, ih (n + 1)]

/-- Keeping exactly the hit lines of an emission of this shape is a filter. -/
theorem flatMap_enumFrom_filter (f : Str → Bool) (ls : List Str) :
    ∀ m, ((ls.enumFrom m).flatMap fun q => if f q.2 then [q.2] else []) = ls.filter f := by
  induction ls with
  | nil => intro m; simp
  | cons l rest ih =>
    intro m
    cases h : f l <;> simp [h, ih (m + 1), List.filter_cons]

/-- With `file_name_only` on and `invert_mode` off, the scan loop yields the
path alone when some line hits, and nothing otherwise. -/
theorem scanLines_fno (flags : Flags) (path pattern : Str)
    (hl : flags.file_name_only = true) (hv : flags.invert_mode = false) (ls : List Str) :
    ∀ n, scanLines flags path pattern ls n =
      if ls.any (hitLine flags pattern) then [path] else [] := by
  induction ls with
  | nil => intro n; simp [scanLines]
  | cons l rest ih =>
    intro n
    cases hh : hitLine flags pattern l
    · simp [scanLines, hh, hv, ih (n + 1), List.any_cons]
    · simp [scanLines, hh, hl, List.any_cons]

/-- On a readable file, `handle_file` runs the scan loop on the file's lines
with the case-folded pattern and the counter starting at 0. -/
theorem handleOut_some (fsys : FileSys) (path p : Str) (flags : Flags) (lines : List Str)
    (h : fsys path = some lines) :
    handleOut fsys path p flags =
      scanLines flags path (if flags.case_insensitie then toAsciiLowercase p else p) lines 0 := by
  unfold handleOut
  rw [h]

/-- On an unreadable file, `handle_file` produces no output lines. -/
theorem handleOut_none (fsys : FileSys) (path p : Str) (flags : Flags)
    (h : fsys path = none) :
    handleOut fsys path p flags = [] := by
  unfold handleOut
  rw [h]

/-- With `file_name_only` on, the scan loop never looks past the first hit. -/
theorem scanLines_stops (flags : Flags) (path pattern : Str)
    (hl : flags.file_name_only = true) (l : Str) (hhit : hitLine flags pattern l = true) :
    ∀ (pre rest rest' : List Str) (n : Nat),
      scanLines flags path pattern (pre ++ l :: rest) n =
        scanLines flags path pattern (pre ++ l :: rest') n := by
  intro pre
  induction pre with
  | nil => intro rest rest' n; simp [scanLines, hhit, hl]
  | cons a pre ih =>
    intro rest rest' n
    cases hh : hitLine flags pattern a
    · cases hv : flags.invert_mode <;> simp [scanLines, hh, hv, ih rest rest' (n + 1)]
    · simp [scanLines, hh, hl]

/-- The hit decision reads only the `case_insensitie` and `entire_line_only`
flags. -/
theorem hitLine_depends_on_bools (f1 f2 : Flags)
    (h3 : f1.case_insensitie = f2.case_insensitie)
    (h5 : f1.entire_line_only = f2.entire_line_only) (pat l : Str) :
    hitLine f1 pat l = hitLine f2 pat l := by
  simp only [hitLine, h3, h5]

/-- The scan loop reads only the five boolean flags of the configuration. -/
theorem scanLines_depends_on_bools (f1 f2 : Flags)
    (h1 : f1.show_line_number = f2.show_line_number)
    (h2 : f1.file_name_only = f2.file_name_only)
    (h3 : f1.case_insensitie = f2.case_insensitie)
    (h4 : f1.invert_mode = f2.invert_mode)
    (h5 : f1.entire_line_only = f2.entire_line_only)
    (path pat : Str) (ls : List Str) :
    ∀ n, scanLines f1 path pat ls n = scanLines f2 path pat ls n := by
  induction ls with
  | nil => intro n; simp [scanLines]
  | cons l rest ih =>
    intro n
    simp only [scanLines, hitLine_depends_on_bools f1 f2 h3 h5 pat l, h1, h2, h4, ih (n + 1)]

/-- C1: with all five flags off, the scanner's output for a file whose lines
are `L1..Ln` and pattern `P` is exactly the subsequence of lines containing
`P` as a substring, in original order, with no prefix added. -/
theorem default_flags_filter (fsys : FileSys) (path p fp : Str) (ff lines : List Str)
    (h : fsys path = some lines) :
    handle_file fsys path p ⟨false, false, false, false, false, fp, ff⟩ =
      Except.ok (lines.filter fun l => decide (p <:+: l)) := by
  rw [handle_file_eq_ok, handleOut_some fsys path p _ lines h,
    scanLines_eq_flatMap _ path _ rfl lines 0]
  exact congrArg Except.ok (flatMap_enumFrom_filter (fun l => decide (p <:+: l)) lines 1)

/-- C1 witness: on a file with lines "fo", "b" and pattern "f", the output is
the single line "fo". -/
theorem default_flags_filter_witness :
    handle_file (fun q => if q = [112] then some [[102, 111], [98]] else none) [112] [102]
      ⟨false, false, false, false, false, [], []⟩ = Except.ok [[102, 111]] :=
  (default_flags_filter _ _ _ _ _ _ rfl).trans (by rfl)

/-- C2: grep never fails as a whole; a file that cannot be opened contributes
zero output lines; a nonexistent path scanned alongside a valid one yields the
output of the valid one alone. -/
theorem grep_total_and_skips (fsys : FileSys) (p : Str) (flags : Flags) (b v : Str)
    (hb : fsys b = none) :
    (∀ files, ∃ out, grep fsys p flags files = Except.ok out) ∧
    handle_file fsys b p flags = Except.ok [] ∧
    grep fsys p flags [b, v] = grep fsys p flags [v] := by
  refine ⟨fun files => ⟨_, rfl⟩, ?_, ?_⟩
  · rw [handle_file_eq_ok, handleOut_none fsys b p flags hb]
  · rw [grep_eq_ok, grep_eq_ok]
    simp [List.flatMap_cons, handleOut_none fsys b p flags hb]

/-- C2 witness: with no file readable, grep still succeeds, the unreadable
file "b" contributes nothing, and dropping it leaves the output unchanged. -/
theorem grep_total_and_skips_witness :
    (∀ files, ∃ out, grep (fun _ => none) [97] ⟨false, false, false, false, false, [], []⟩ files
        = Except.ok out) ∧
    handle_file (fun _ => none) [98] [97] ⟨false, false, false, false, false, [], []⟩ =
      Except.ok [] ∧
    grep (fun _ => none) [97] ⟨false, false, false, false, false, [], []⟩ [[98], [99]] =
      grep (fun _ => none) [97] ⟨false, false, false, false, false, [], []⟩ [[99]] :=
  grep_total_and_skips (fun _ => none) [97] ⟨false, false, false, false, false, [], []⟩
    [98] [99] rfl

/-- C9: grep is a concatenation homomorphism over the file list: scanning
`fs1 ++ fs2` yields the output of `fs1` followed by the output of `fs2`. -/
theorem grep_append_homomorphism (fsys : FileSys) (p : Str) (flags : Flags)
    (fs1 fs2 : List Str) :
    ∃ o1 o2, grep fsys p flags fs1 = Except.ok o1 ∧ grep fsys p flags fs2 = Except.ok o2 ∧
      grep fsys p flags (fs1 ++ fs2) = Except.ok (o1 ++ o2) := by
  refine ⟨_, _, grep_eq_ok fsys p flags fs1, grep_eq_ok fsys p flags fs2, ?_⟩
  rw [grep_eq_ok, List.flatMap_append]

/-- C10: grep's output does not depend on the `pattern` and `files` fields
stored in the configuration: two flag records agreeing on the five booleans
produce identical output for the same pattern argument and file list. -/
theorem grep_ignores_flag_fields (fsys : FileSys) (p : Str) (files : List Str) (f1 f2 : Flags)
    (h1 : f1.show_line_number = f2.show_line_number)
    (h2 : f1.file_name_only = f2.file_name_only)
    (h3 : f1.case_insensitie = f2.case_insensitie)
    (h4 : f1.invert_mode = f2.invert_mode)
    (h5 : f1.entire_line_only = f2.entire_line_only) :
    grep fsys p f1 files = grep fsys p f2 files := by
  rw [grep_eq_ok, grep_eq_ok]
  have hout : ∀ f, handleOut fsys f p f1 = handleOut fsys f p f2 := by
    intro f
    simp only [handleOut, h3]
    cases hf : fsys f
    · rfl
    · exact scanLines_depends_on_bools f1 f2 h1 h2 h3 h4 h5 f _ _ 0
  simp only [hout]

/-- C10 witness: two configurations differing only in their stored pattern
and files fields give the same output. -/
theorem grep_ignores_flag_fields_witness :
    grep (fun q => if q = [112] then some [[102]] else none) [102]
      ⟨false, false, false, false, false, [97], [[97]]⟩ [[112]] =
    grep (fun q => if q = [112] then some [[102]] else none) [102]
      ⟨false, false, false, false, false, [98], []⟩ [[112]] :=
  grep_ignores_flag_fields _ _ _ _ _ rfl rfl rfl rfl rfl

/-- C6: with `entire_line_only` on, matching is full-string equality instead
of substring containment: a line that contains the pattern but differs from it
is not a hit, while with `entire_line_only` off it is a hit; this holds for
every setting of the remaining flags. -/
theorem entire_line_only_equality (flags : Flags) (p l : Str)
    (hsub : p <:+: l) (hne : l ≠ p) :
    hitDecision { flags with entire_line_only := true } p l = false ∧
    hitDecision { flags with entire_line_only := false } p l = true := by
  have hlen : p.length < l.length :=
    lt_of_le_of_ne hsub.length_le fun heq => hne (hsub.eq_of_length heq).symm
  have hfoldne : toAsciiLowercase l ≠ toAsciiLowercase p := by
    intro heq
    have hl2 := congrArg List.length heq
    rw [toAsciiLowercase_length, toAsciiLowercase_length] at hl2
    omega
  cases hc : flags.case_insensitie
  · constructor
    · simp [hitDecision, hitLine, hc, hne]
    · simp [hitDecision, hitLine, hc, containsSub, hsub]
  · constructor
    · simp [hitDecision, hitLine, hc, eqIgnoreAsciiCase, toAsciiLowercase_idem, hfoldne]
    · simp [hitDecision, hitLine, hc, containsSub]
      exact substr_map asciiLowerByte hsub

/-- C6 witness: the line "fo" contains the pattern "f" but is not equal to it:
it is a hit in containment mode and not a hit in entire-line mode. -/
theorem entire_line_only_equality_witness :
    hitDecision ⟨false, false, false, false, true, [], []⟩ [102] [102, 111] = false ∧
    hitDecision ⟨false, false, false, false, false, [], []⟩ [102] [102, 111] = true :=
  entire_line_only_equality ⟨false, false, false, false, false, [], []⟩ [102] [102, 111]
    (by decide) (by decide)

/-- C7: with `case_insensitie` on, the hit decision is invariant under
changing the ASCII case of letters of the line or of the pattern, whatever
the remaining flags (in particular in both containment and entire-line
modes). -/
theorem case_insensitive_invariant (flags : Flags) (hc : flags.case_insensitie = true)
    (p p' l l' : Str) (hp : AsciiCaseVariant p p') (hl : AsciiCaseVariant l l') :
    hitDecision flags p l = hitDecision flags p' l' := by
  unfold AsciiCaseVariant at hp hl
  cases he : flags.entire_line_only <;>
    simp [hitDecision, hitLine, hc, he, containsSub, eqIgnoreAsciiCase,
      toAsciiLowercase_idem, hp, hl]

/-- C7 witness: with case-insensitive matching, pattern "F" on line "F" decides
the same as pattern "f" on line "f". -/
theorem case_insensitive_invariant_witness :
    hitDecision ⟨false, false, true, false, false, [], []⟩ [70] [70] =
      hitDecision ⟨false, false, true, false, false, [], []⟩ [102] [102] :=
  case_insensitive_invariant ⟨false, false, true, false, false, [], []⟩ rfl
    [70] [102] [70] [102] (by rfl) (by rfl)

/-- C8: the empty pattern hits every line in containment mode and exactly the
empty lines in entire-line mode, and a file with zero lines contributes no
output under any flags. -/
theorem empty_pattern_cases (flags : Flags) :
    (flags.entire_line_only = false → ∀ l : Str, hitDecision flags [] l = true) ∧
    (flags.entire_line_only = true → ∀ l : Str, (hitDecision flags [] l = true ↔ l = [])) ∧
    (∀ (fsys : FileSys) (path p : Str), fsys path = some [] →
      handle_file fsys path p flags = Except.ok []) := by
  refine ⟨?_, ?_, ?_⟩
  · intro he l
    cases hc : flags.case_insensitie <;>
      simp [hitDecision, hitLine, hc, he, containsSub, toAsciiLowercase]
  · intro he l
    cases hc : flags.case_insensitie <;>
      simp [hitDecision, hitLine, hc, he, eqIgnoreAsciiCase, toAsciiLowercase]
  · intro fsys path p hfs
    rw [handle_file_eq_ok, handleOut_some fsys path p flags [] hfs]
    simp [scanLines]

/-- C8 witness: the empty pattern hits the line "a" in containment mode, and
a file with zero lines yields no output. -/
theorem empty_pattern_cases_witness :
    hitDecision ⟨false, false, false, false, false, [], []⟩ [] [97] = true ∧
    handle_file (fun _ => some []) [112] [98] ⟨false, false, false, false, false, [], []⟩ =
      Except.ok [] :=
  ⟨(empty_pattern_cases ⟨false, false, false, false, false, [], []⟩).1 rfl [97],
    (empty_pattern_cases ⟨false, false, false, false, false, [], []⟩).2.2 _ _ _ rfl⟩

/-- C3 counterexample: with `show_line_number` and `invert_mode` both on, the
non-matching line "a" (line 1, pattern "b") is emitted as the bare line, not
prefixed with "1:", so the prefix is not applied independently of the other
flags. -/
theorem show_line_number_cex :
    grep (fun q => if q = [112] then some [[97]] else none) [98]
      ⟨true, false, false, true, false, [], []⟩ [[112]] = Except.ok [[97]] ∧
    ([97] : Str) ≠ numToStr 1 ++ 58 :: [97] := by
  constructor
  · rfl
  · decide

/-- C3 amended: with `show_line_number` on and `file_name_only` off, every
hit line is emitted prefixed with its 1-based line number and a colon, while
a line emitted because of `invert_mode` is emitted bare; under
`file_name_only` the only emission is the bare path. -/
theorem show_line_number_format (fsys : FileSys) (path p : Str) (flags : Flags)
    (lines : List Str)
    (hn : flags.show_line_number = true) (hfno : flags.file_name_only = false)
    (hfs : fsys path = some lines) :
    handle_file fsys path p flags =
      Except.ok ((lines.enumFrom 1).flatMap fun q =>
        if hitDecision flags p q.2 then [numToStr q.1 ++ 58 :: q.2]
        else if flags.invert_mode then [q.2] else []) := by
  rw [handle_file_eq_ok, handleOut_some fsys path p flags lines hfs,
    scanLines_eq_flatMap flags path _ hfno lines 0]
  simp only [Nat.zero_add]
  have hbody : (fun q : Nat × Str =>
      if hitLine flags (if flags.case_insensitie then toAsciiLowercase p else p) q.2 then
        [if flags.show_line_number then numToStr q.1 ++ 58 :: q.2 else q.2]
      else if flags.invert_mode then [q.2] else []) =
      fun q : Nat × Str =>
        if hitDecision flags p q.2 then [numToStr q.1 ++ 58 :: q.2]
        else if flags.invert_mode then [q.2] else [] := by
    funext q
    simp [hitDecision, hn]
  rw [hbody]

/-- C3 amended witness: lines "a", "b" with pattern "b": only line 2 hits and
it is emitted as "2:b". -/
theorem show_line_number_format_witness :
    handle_file (fun q => if q = [112] then some [[97], [98]] else none) [112] [98]
      ⟨true, false, false, false, false, [], []⟩ = Except.ok [[50, 58, 98]] :=
  (show_line_number_format _ _ _ _ _ rfl rfl rfl).trans (by rfl)

/-- C4 counterexample: with `file_name_only` and `invert_mode` both on, a file
with lines "a", "b" and pattern "b" produces the non-matching line "a" and then
the path, i.e. two emissions, not at most the single path emission. -/
theorem file_name_only_cex :
    grep (fun q => if q = [112] then some [[97], [98]] else none) [98]
      ⟨false, true, false, true, false, [], []⟩ [[112]] = Except.ok [[97], [112]] ∧
    ([[97], [112]] : List Str) ≠ [] ∧ ([[97], [112]] : List Str) ≠ [[112]] := by
  refine ⟨?_, ?_, ?_⟩
  · rfl
  · decide
  · decide

/-- C4 amended: with `file_name_only` on and `invert_mode` off, the per-line
output of a file is replaced by at most one emission, the file's path, present
iff some line satisfies the forward match predicate; and with `file_name_only`
on (whatever the other flags), nothing after the first hit line is ever
considered. -/
theorem file_name_only_amended (flags : Flags) (hfo : flags.file_name_only = true) :
    (∀ (fsys : FileSys) (path p : Str) (lines : List Str), flags.invert_mode = false →
      fsys path = some lines →
      handle_file fsys path p flags =
        Except.ok (if lines.any (hitDecision flags p) then [path] else [])) ∧
    (∀ (path p l : Str) (pre rest rest' : List Str), hitDecision flags p l = true →
      handle_file (fun _ => some (pre ++ l :: rest)) path p flags =
        handle_file (fun _ => some (pre ++ l :: rest')) path p flags) := by
  constructor
  · intro fsys path p lines hv hfs
    rw [handle_file_eq_ok, handleOut_some fsys path p flags lines hfs,
      scanLines_fno flags path _ hfo hv lines 0]
    rfl
  · intro path p l pre rest rest' hhit
    have h2 := scanLines_stops flags path
      (if flags.case_insensitie then toAsciiLowercase p else p) hfo l hhit
      pre rest rest' 0
    rw [handle_file_eq_ok, handle_file_eq_ok,
      handleOut_some _ path p flags (pre ++ l :: rest) rfl,
      handleOut_some _ path p flags (pre ++ l :: rest') rfl, h2]

/-- C4 amended witness: lines "a", "b", pattern "b": the file is reported once
by its path; and with a first-line hit the tail of the file is irrelevant. -/
theorem file_name_only_amended_witness :
    handle_file (fun q => if q = [112] then some [[97], [98]] else none) [112] [98]
      ⟨false, true, false, false, false, [], []⟩ = Except.ok [[112]] ∧
    handle_file (fun _ => some ([[98], [97]] : List Str)) [112] [98]
      ⟨false, true, false, true, false, [], []⟩ =
      handle_file (fun _ => some ([[98], [99]] : List Str)) [112] [98]
        ⟨false, true, false, true, false, [], []⟩ :=
  ⟨((file_name_only_amended _ rfl).1 _ _ _ _ rfl rfl).trans (by rfl),
    (file_name_only_amended ⟨false, true, false, true, false, [], []⟩ rfl).2
      [112] [98] [98] [] [[97]] [[99]] (by rfl)⟩

/-- C5: the code contradicts the claim (and its own documentation of
`invert_mode`): with `invert_mode` on and the other flags off, on the file
with lines "foo", "baz" and pattern "foo" the matching line "foo" is emitted
as well, so the output is all lines rather than the complement. -/
theorem invert_mode_emits_matches :
    grep (fun q => if q = [112] then some [[102, 111, 111], [98, 97, 122]] else none)
      [102, 111, 111] ⟨false, false, false, true, false, [], []⟩ [[112]] =
      Except.ok [[102, 111, 111], [98, 97, 122]] ∧
    ([[102, 111, 111], [98, 97, 122]] : List Str) ≠
      [[102, 111, 111], [98, 97, 122]].filter fun l => !decide ([102, 111, 111] <:+: l) := by
  constructor
  · rfl
  · decide

end Grep
